import Mathlib

/-!
Verification of the operation-routing and live-event-distribution layer of the
graphql-learning repository.

The server resolvers (createUser, updateUser, deleteUser, the query resolvers,
and the subscription registrations) are embedded from the backend source file
(the Apollo server in the repository).  The Topic Bus internals (the
graphql-subscriptions PubSub class) are a library dependency whose code is not
part of the repository; where a claim depends on bus internals the bus is
modelled from the design spec (sequence counters, per-subscriber bounded
delivery channels, overflow policy) and the corresponding definitions say so
in their doc comments.
-/

namespace GqlGateway

/-- User record as stored in the in-memory `users` array of the server.
GraphQL `Float` salaries are carried opaquely (the server never computes with
them), so the numeric value is modelled as an integer-valued numeral. -/
structure User where
  id : String
  name : String
  age : Int
  salary : Int
  department : String
deriving DecidableEq, Repr

/-- CreateUserInput of the schema: all four fields required. -/
structure CreateUserInput where
  name : String
  age : Int
  salary : Int
  department : String
deriving DecidableEq, Repr

/-- UpdateUserInput of the schema: every field optional. -/
structure UpdateUserInput where
  name : Option String
  age : Option Int
  salary : Option Int
  department : Option String
deriving DecidableEq, Repr

/-- Embedding of the JavaScript object spread `{ ...users[userIndex], ...input }`
for an UpdateUserInput: fields present in the input override, absent fields
keep the stored value; the `id` field is not part of UpdateUserInput and is
always kept. -/
def applyPatch (u : User) (p : UpdateUserInput) : User :=
  { id := u.id
    name := p.name.getD u.name
    age := p.age.getD u.age
    salary := p.salary.getD u.salary
    department := p.department.getD u.department }

/-- Payload published on the bus by the three mutations: the source publishes
`{ userCreated: newUser }`, `{ userUpdated: users[userIndex] }` and
`{ userDeleted: id }` respectively. -/
inductive Payload where
  | userCreated (u : User)
  | userUpdated (u : User)
  | userDeleted (id : String)
deriving DecidableEq, Repr

/-- Event on a topic.  Modelled from the spec: an Event carries its `topic`,
its `payload` and a per-topic monotonic `sequence` number (spec section 3);
the PubSub library code that realises events is not part of the repository. -/
structure Event where
  topic : String
  payload : Payload
  sequence : Nat
deriving DecidableEq, Repr

/-- Subscriber handle.  Modelled from the spec: a live registration on one
topic, with a connection id, a bounded deliveryChannel and its capacity
(spec sections 3 and 4.3); the PubSub library code that realises
subscriptions is not part of the repository. -/
structure Subscriber where
  connectionId : Nat
  topic : String
  channel : List Event
  capacity : Nat
deriving DecidableEq, Repr

/-- Topic Bus state.  Modelled from the spec: the set of active subscriber
handles plus a per-topic sequence counter, kept as an association list from
topic name to the last assigned sequence number (0 when the topic has never
been published to). -/
structure TopicBus where
  subscribers : List Subscriber
  seq : List (String × Nat)
deriving DecidableEq, Repr

/-- Last sequence number assigned on a topic (0 initially). -/
def lookupSeq : List (String × Nat) → String → Nat
  | [], _ => 0
  | (k, v) :: rest, t => if k = t then v else lookupSeq rest t

/-- Record a new last sequence number for a topic. -/
def setSeq : List (String × Nat) → String → Nat → List (String × Nat)
  | [], t, v => [(t, v)]
  | (k, w) :: rest, t, v =>
    if k = t then (t, v) :: rest else (k, w) :: setSeq rest t v

/-- Event built by a publish on the current bus state: it gets the next
sequence number for the topic. -/
def mkEvent (bus : TopicBus) (t : String) (p : Payload) : Event :=
  { topic := t, payload := p, sequence := lookupSeq bus.seq t + 1 }

/-- Modelled from the spec: `publish(topic, payload)` assigns the next
sequence number for the topic, then synchronously enumerates the current
snapshot of Subscribers on that topic and enqueues the Event onto each
deliveryChannel; a Subscriber whose channel is already full is dropped
(forcibly unsubscribed) instead of blocking the publisher (spec section 4.3).
The PubSub library code that realises publish is not part of the repository. -/
def publish (bus : TopicBus) (t : String) (p : Payload) : TopicBus :=
  let ev := mkEvent bus t p
  { subscribers := bus.subscribers.filterMap fun sub =>
      if sub.topic = t then
        if sub.channel.length < sub.capacity then
          some { sub with channel := sub.channel ++ [ev] }
        else
          none
      else
        some sub
    seq := setSeq bus.seq t ev.sequence }

/-- Modelled from the spec: `subscribe(topic, subscriber)` adds a Subscriber
handle with an empty deliveryChannel; topic membership is a set, so a
duplicate registration of the same connection on the same topic is a no-op
(spec sections 3 and 4.3). -/
def subscribe (bus : TopicBus) (connId : Nat) (t : String) (cap : Nat) : TopicBus :=
  if bus.subscribers.any fun s => s.connectionId = connId ∧ s.topic = t then
    bus
  else
    { bus with subscribers :=
        bus.subscribers ++ [{ connectionId := connId, topic := t, channel := [], capacity := cap }] }

/-- Modelled from the spec: `unsubscribe(topic, subscriber)` removes the
handle; a double unsubscribe is a no-op (spec section 4.3). -/
def unsubscribe (bus : TopicBus) (connId : Nat) (t : String) : TopicBus :=
  { bus with subscribers :=
      bus.subscribers.filter fun s => ¬ (s.connectionId = connId ∧ s.topic = t) }

/-- Error taxonomy relevant to the verified claims: the `User with ID x not
found` error thrown by updateUser and deleteUser (surfaced by GraphQL as a
structured, non-fatal error result), and the MalformedOperation rejection of
the classification boundary. -/
inductive GqlError where
  | notFound (id : String)
  | malformedOperation
deriving DecidableEq, Repr

/-- Observable effects of one resolver call, in program order: a completed
in-memory store mutation, a publish of an event to the bus, and the return
of the result to the caller. -/
inductive Effect where
  | commit
  | publishEv (ev : Event)
  | ret
deriving DecidableEq, Repr

/-- In-memory store of the server: the `users` array and the `nextUserId`
counter. -/
structure ServerState where
  users : List User
  nextUserId : Nat
deriving DecidableEq, Repr

/-- Combined state of the gateway: the domain store plus the Topic Bus. -/
structure GatewayState where
  server : ServerState
  bus : TopicBus
deriving DecidableEq, Repr

/-- Sample data of the server source: the three seeded users. -/
def initialUsers : List User :=
  [ { id := "1", name := "Rahul", age := 25, salary := 70000, department := "Engineering" }
  , { id := "2", name := "Aisha", age := 30, salary := 85000, department := "Marketing" }
  , { id := "3", name := "Ravi", age := 22, salary := 60000, department := "Support" } ]

/-- Initial state of the server: the seeded users, `nextUserId = 4`, and a
fresh bus with no subscribers and no assigned sequence numbers. -/
def initialState : GatewayState :=
  { server := { users := initialUsers, nextUserId := 4 }
    bus := { subscribers := [], seq := [] } }

/-- Embedding of `users.findIndex(u => u.id === id)` followed by the in-place
replacement `users[userIndex] = { ...users[userIndex], ...input }`: replaces
the first user whose id matches and returns the updated record together with
the updated array, or `none` when no user matches (findIndex = -1). -/
def updateList (id : String) (p : UpdateUserInput) : List User → Option (User × List User)
  | [] => none
  | u :: rest =>
    if u.id = id then
      let u2 := applyPatch u p
      some (u2, u2 :: rest)
    else
      match updateList id p rest with
      | none => none
      | some (r, rest2) => some (r, u :: rest2)

/-- Embedding of `users.findIndex(u => u.id === id)` followed by
`users.splice(userIndex, 1)`: removes the first user whose id matches, or
returns `none` when no user matches. -/
def deleteList (id : String) : List User → Option (List User)
  | [] => none
  | u :: rest =>
    if u.id = id then some rest
    else
      match deleteList id rest with
      | none => none
      | some rest2 => some (u :: rest2)

/-- Embedding of the createUser resolver: builds the new user with
`nextUserId.toString()` as id, increments the counter, pushes the user onto
the array, publishes USER_CREATED, and returns the new user.  The effect
trace lists the observable steps in the statement order of the source. -/
def createUser (input : CreateUserInput) (st : GatewayState) :
    User × GatewayState × List Effect :=
  let newUser : User :=
    { id := Nat.repr st.server.nextUserId
      name := input.name
      age := input.age
      salary := input.salary
      department := input.department }
  let server2 : ServerState :=
    { users := st.server.users ++ [newUser], nextUserId := st.server.nextUserId + 1 }
  let ev := mkEvent st.bus "USER_CREATED" (Payload.userCreated newUser)
  let bus2 := publish st.bus "USER_CREATED" (Payload.userCreated newUser)
  (newUser, { server := server2, bus := bus2 },
    [Effect.commit, Effect.publishEv ev, Effect.ret])

/-- Embedding of the updateUser resolver: finds the user by id (throwing the
not-found error before any mutation when the id is absent), replaces it by
the spread-merged record, publishes USER_UPDATED, and returns the updated
record. -/
def updateUser (id : String) (input : UpdateUserInput) (st : GatewayState) :
    Except GqlError User × GatewayState × List Effect :=
  match updateList id input st.server.users with
  | none => (Except.error (GqlError.notFound id), st, [])
  | some (r, users2) =>
    let server2 : ServerState := { st.server with users := users2 }
    let ev := mkEvent st.bus "USER_UPDATED" (Payload.userUpdated r)
    let bus2 := publish st.bus "USER_UPDATED" (Payload.userUpdated r)
    (Except.ok r, { server := server2, bus := bus2 },
      [Effect.commit, Effect.publishEv ev, Effect.ret])

/-- Embedding of the deleteUser resolver: finds the user by id (throwing the
not-found error before any mutation when the id is absent), splices it out,
publishes USER_DELETED with the id, and returns true. -/
def deleteUser (id : String) (st : GatewayState) :
    Except GqlError Bool × GatewayState × List Effect :=
  match deleteList id st.server.users with
  | none => (Except.error (GqlError.notFound id), st, [])
  | some users2 =>
    let server2 : ServerState := { st.server with users := users2 }
    let ev := mkEvent st.bus "USER_DELETED" (Payload.userDeleted id)
    let bus2 := publish st.bus "USER_DELETED" (Payload.userDeleted id)
    (Except.ok true, { server := server2, bus := bus2 },
      [Effect.commit, Effect.publishEv ev, Effect.ret])

/-- Write operations of the Mutation type. -/
inductive WriteOp where
  | create (input : CreateUserInput)
  | update (id : String) (input : UpdateUserInput)
  | delete (id : String)
deriving DecidableEq, Repr

/-- Result of a write: the affected user record for create and update, the
boolean for delete. -/
inductive WriteResult where
  | user (u : User)
  | deleted (b : Bool)
deriving DecidableEq, Repr

/-- Dispatch of a write operation to its resolver. -/
def runWrite (w : WriteOp) (st : GatewayState) :
    Except GqlError WriteResult × GatewayState × List Effect :=
  match w with
  | WriteOp.create input =>
    let (u, st2, tr) := createUser input st
    (Except.ok (WriteResult.user u), st2, tr)
  | WriteOp.update id input =>
    let (r, st2, tr) := updateUser id input st
    (r.map WriteResult.user, st2, tr)
  | WriteOp.delete id =>
    let (r, st2, tr) := deleteUser id st
    (r.map WriteResult.deleted, st2, tr)

/-- Topic on which a write publishes its event. -/
def topicOfWrite : WriteOp → String
  | WriteOp.create _ => "USER_CREATED"
  | WriteOp.update _ _ => "USER_UPDATED"
  | WriteOp.delete _ => "USER_DELETED"

/-- Gateway-level operations: a write, a live-subscribe registration, or an
unsubscribe. -/
inductive GatewayOp where
  | write (w : WriteOp)
  | subscribeOp (connId : Nat) (t : String) (cap : Nat)
  | unsubscribeOp (connId : Nat) (t : String)
deriving DecidableEq, Repr

/-- One gateway step: writes run their resolver (discarding the result),
subscribe and unsubscribe act on the bus only. -/
def applyGatewayOp (st : GatewayState) : GatewayOp → GatewayState
  | GatewayOp.write w => (runWrite w st).2.1
  | GatewayOp.subscribeOp c t cap => { st with bus := subscribe st.bus c t cap }
  | GatewayOp.unsubscribeOp c t => { st with bus := unsubscribe st.bus c t }

/-- Run of a sequence of gateway operations. -/
def runGateway (ops : List GatewayOp) (st : GatewayState) : GatewayState :=
  ops.foldl applyGatewayOp st

/-- Iterated publish of the same payload on the same topic (the saturation
scenario of the spec: N events published while one subscriber never drains). -/
def pubs (t : String) (p : Payload) : Nat → TopicBus → TopicBus
  | 0, bus => bus
  | n + 1, bus => pubs t p n (publish bus t p)

/-- Bus holding exactly one subscriber of topic t (connection 1, empty
channel, capacity capA) and no assigned sequence numbers: the starting point
of the saturation scenario. -/
def oneSubBus (t : String) (capA : Nat) : TopicBus :=
  { subscribers := [{ connectionId := 1, topic := t, channel := [], capacity := capA }]
    seq := [] }

/-- Operation descriptor as inspected by the splitLink predicate of the
client: `getMainDefinition(query)` yields a definition node carrying a `kind`
and, for operation definitions, an `operation` field. -/
structure OperationDescriptor where
  kind : String
  operation : String
deriving DecidableEq, Repr

/-- Embedding of the splitLink predicate of App.jsx:
`definition.kind === "OperationDefinition" && definition.operation === "subscription"`. -/
def splitTest (d : OperationDescriptor) : Bool :=
  d.kind == "OperationDefinition" && d.operation == "subscription"

/-- Kinds an operation can be classified as. -/
inductive OpKind where
  | read
  | write
  | liveSubscribe
deriving DecidableEq, Repr

/-- Modelled from the spec: the Operation Classifier returns exactly one of
Read, Write, LiveSubscribe as a pure function of the declared kind of the
descriptor, and rejects unknown or malformed descriptors with
MalformedOperation (spec section 4.1).  The total three-way classifier is
realised in the repository only through the external GraphQL validation
engine together with the splitLink predicate (embedded above as splitTest),
whose true branch coincides with the liveSubscribe case. -/
def classifyOperation (d : OperationDescriptor) : Except GqlError OpKind :=
  if d.kind = "OperationDefinition" then
    if d.operation = "query" then Except.ok OpKind.read
    else if d.operation = "mutation" then Except.ok OpKind.write
    else if d.operation = "subscription" then Except.ok OpKind.liveSubscribe
    else Except.error GqlError.malformedOperation
  else Except.error GqlError.malformedOperation

/-- Operation submitted to the gateway: its descriptor plus the gateway
action it denotes. -/
structure Operation where
  descriptor : OperationDescriptor
  action : GatewayOp

/-- Modelled from the spec: the Transport Router classifies the descriptor
first and dispatches only on success, so a MalformedOperation rejection
happens before any store access or subscription registration (spec
sections 4.1 and 4.2). -/
def routeOperation (op : Operation) (st : GatewayState) :
    Except GqlError Unit × GatewayState × List Effect :=
  match classifyOperation op.descriptor with
  | Except.error e => (Except.error e, st, [])
  | Except.ok _ =>
    match op.action with
    | GatewayOp.write w =>
      let (r, st2, tr) := runWrite w st
      (r.map fun _ => Unit.unit, st2, tr)
    | a => (Except.ok Unit.unit, applyGatewayOp st a, [])

/-- Little-endian decimal digits of a natural number (used to reason about
`Nat.repr`, which produces the decimal digits big-endian). -/
def digitsLE (n : Nat) : List Nat :=
  if n < 10 then [n]
  else n % 10 :: digitsLE (n / 10)
decreasing_by exact Nat.div_lt_self (by omega) (by omega)

/-- Value of a little-endian decimal digit list. -/
def ofDigitsLE : List Nat → Nat
  | [] => 0
  | d :: ds => d + 10 * ofDigitsLE ds

/-- Channel discipline of a subscriber with respect to the last assigned
sequence number s of its topic: the channel holds only events of its own
topic and their sequence numbers form the contiguous strictly increasing
run ending at s. -/
def chanOk (s : Nat) (sub : Subscriber) : Prop :=
  (∀ ev ∈ sub.channel, ev.topic = sub.topic) ∧
  sub.channel.length ≤ s ∧
  sub.channel.map Event.sequence =
    List.range' (s - sub.channel.length + 1) sub.channel.length

/-- Bus invariant: every subscriber satisfies the channel discipline for the
current sequence counter of its topic. -/
def busOk (bus : TopicBus) : Prop :=
  ∀ sub ∈ bus.subscribers, chanOk (lookupSeq bus.seq sub.topic) sub

/-- Freshness of an already published event with respect to a connection:
the sequence counter of the topic of the event has moved at least up to the
event, and no subscriber handle of the connection holds the event. -/
def avoids (c : Nat) (ev : Event) (bus : TopicBus) : Prop :=
  ev.sequence ≤ lookupSeq bus.seq ev.topic ∧
  ∀ sub ∈ bus.subscribers, sub.connectionId = c → ev ∉ sub.channel

/-- Store id discipline: all stored ids are pairwise distinct and every one
is the decimal string of a number strictly below the id counter. -/
def goodIds (st : GatewayState) : Prop :=
  (st.server.users.map User.id).Nodup ∧
  ∀ u ∈ st.server.users, ∃ n, n < st.server.nextUserId ∧ u.id = Nat.repr n

theorem lookupSeq_setSeq_self (m : List (String × Nat)) (t : String) (v : Nat) :
    lookupSeq (setSeq m t v) t = v := by
  induction m with
  | nil => simp [setSeq, lookupSeq]
  | cons kv rest ih =>
    obtain ⟨k, w⟩ := kv
    by_cases hk : k = t
    · simp [setSeq, lookupSeq, hk]
    · simp [setSeq, lookupSeq, hk, ih]

theorem lookupSeq_setSeq_ne (m : List (String × Nat)) (t u : String) (v : Nat)
    (h : u ≠ t) : lookupSeq (setSeq m t v) u = lookupSeq m u := by
  induction m with
  | nil => simp [setSeq, lookupSeq, Ne.symm h]
  | cons kv rest ih =>
    obtain ⟨k, w⟩ := kv
    by_cases hk : k = t
    · subst hk
      simp [setSeq, lookupSeq, Ne.symm h]
    · simp [setSeq, lookupSeq, hk, ih]

theorem lookupSeq_publish_self (bus : TopicBus) (t : String) (p : Payload) :
    lookupSeq (publish bus t p).seq t = lookupSeq bus.seq t + 1 := by
  simp [publish, mkEvent, lookupSeq_setSeq_self]

theorem lookupSeq_publish_ne (bus : TopicBus) (t u : String) (p : Payload)
    (h : u ≠ t) : lookupSeq (publish bus t p).seq u = lookupSeq bus.seq u := by
  simp [publish, mkEvent, lookupSeq_setSeq_ne _ _ _ _ h]

theorem lookupSeq_publish_ge (bus : TopicBus) (t u : String) (p : Payload) :
    lookupSeq bus.seq u ≤ lookupSeq (publish bus t p).seq u := by
  by_cases h : u = t
  · subst h
    rw [lookupSeq_publish_self]
    omega
  · rw [lookupSeq_publish_ne _ _ _ _ h]

theorem mem_publish_of_room (bus : TopicBus) (t : String) (p : Payload)
    (sub : Subscriber) (h : sub ∈ bus.subscribers) (ht : sub.topic = t)
    (hr : sub.channel.length < sub.capacity) :
    { sub with channel := sub.channel ++ [mkEvent bus t p] } ∈ (publish bus t p).subscribers := by
  simp only [publish, List.mem_filterMap]
  exact ⟨sub, h, by simp [ht, hr]⟩

theorem mem_publish_of_other_topic (bus : TopicBus) (t : String) (p : Payload)
    (sub : Subscriber) (h : sub ∈ bus.subscribers) (ht : sub.topic ≠ t) :
    sub ∈ (publish bus t p).subscribers := by
  simp only [publish, List.mem_filterMap]
  exact ⟨sub, h, by simp [ht]⟩

theorem mem_of_mem_publish (bus : TopicBus) (t : String) (p : Payload)
    (sub : Subscriber) (h : sub ∈ (publish bus t p).subscribers) :
    (∃ sub0 ∈ bus.subscribers, sub = sub0 ∧ sub0.topic ≠ t) ∨
    (∃ sub0 ∈ bus.subscribers, sub0.topic = t ∧
      sub0.channel.length < sub0.capacity ∧
      sub = { sub0 with channel := sub0.channel ++ [mkEvent bus t p] }) := by
  simp only [publish, List.mem_filterMap] at h
  obtain ⟨sub0, h0, hf⟩ := h
  by_cases ht : sub0.topic = t
  · subst ht
    by_cases hr : sub0.channel.length < sub0.capacity
    · right
      refine ⟨sub0, h0, rfl, hr, ?_⟩
      simp [hr] at hf
      exact hf.symm
    · simp [hr] at hf
  · left
    refine ⟨sub0, h0, ?_, ht⟩
    simp [ht] at hf
    exact hf.symm

theorem updateList_eq_none_iff (id : String) (p : UpdateUserInput) :
    ∀ us : List User, updateList id p us = none ↔ ∀ u ∈ us, u.id ≠ id := by
  intro us
  induction us with
  | nil => simp [updateList]
  | cons u rest ih =>
    by_cases hu : u.id = id
    · simp [updateList, hu]
    · simp only [updateList, hu, if_false]
      cases hrec : updateList id p rest with
      | none => simpa [hrec, hu] using ih.mp hrec
      | some pr => simp [hrec, hu, (not_iff_not.mpr ih).mp (by simp [hrec])]

theorem updateList_eq_some (id : String) (p : UpdateUserInput) :
    ∀ (us : List User) (r : User) (us2 : List User),
      updateList id p us = some (r, us2) →
      ∃ pre u post, us = pre ++ u :: post ∧ (∀ v ∈ pre, v.id ≠ id) ∧ u.id = id ∧
        r = applyPatch u p ∧ us2 = pre ++ r :: post := by
  intro us
  induction us with
  | nil => intro r us2 h; simp [updateList] at h
  | cons u rest ih =>
    intro r us2 h
    by_cases hu : u.id = id
    · simp only [updateList, hu, if_true, Option.some.injEq, Prod.mk.injEq] at h
      obtain ⟨h1, h2⟩ := h
      exact ⟨[], u, rest, by simp, by simp, hu, h1.symm, by simp [← h2, h1]⟩
    · simp only [updateList, hu, if_false] at h
      cases hrec : updateList id p rest with
      | none => rw [hrec] at h; exact absurd h (by simp)
      | some pr =>
        obtain ⟨r0, rest2⟩ := pr
        rw [hrec] at h
        simp only [Option.some.injEq, Prod.mk.injEq] at h
        obtain ⟨hr, hus2⟩ := h
        obtain ⟨pre, w, post, hsplit, hpre, hw, hrw, hrest2⟩ := ih r0 rest2 hrec
        refine ⟨u :: pre, w, post, by simp [hsplit], ?_, hw, hr ▸ hrw, ?_⟩
        · intro v hv
          rcases List.mem_cons.mp hv with hv | hv
          · exact hv ▸ hu
          · exact hpre v hv
        · simp [← hus2, hrest2, hr]

theorem updateList_append_split (id : String) (p : UpdateUserInput) :
    ∀ (pre : List User) (u : User) (post : List User),
      (∀ v ∈ pre, v.id ≠ id) → u.id = id →
      updateList id p (pre ++ u :: post) =
        some (applyPatch u p, pre ++ applyPatch u p :: post) := by
  intro pre
  induction pre with
  | nil => intro u post _ hu; simp [updateList, hu]
  | cons v rest ih =>
    intro u post hpre hu
    have hv : v.id ≠ id := hpre v (by simp)
    simp only [List.cons_append, updateList, hv, if_false, List.append_eq]
    rw [ih u post (fun w hw => hpre w (by simp [hw])) hu]

theorem deleteList_eq_none_iff (id : String) :
    ∀ us : List User, deleteList id us = none ↔ ∀ u ∈ us, u.id ≠ id := by
  intro us
  induction us with
  | nil => simp [deleteList]
  | cons u rest ih =>
    by_cases hu : u.id = id
    · simp [deleteList, hu]
    · simp only [deleteList, hu, if_false]
      cases hrec : deleteList id rest with
      | none => simpa [hrec, hu] using ih.mp hrec
      | some pr => simp [hrec, hu, (not_iff_not.mpr ih).mp (by simp [hrec])]

theorem deleteList_eq_some (id : String) :
    ∀ (us us2 : List User), deleteList id us = some us2 →
      ∃ pre u post, us = pre ++ u :: post ∧ (∀ v ∈ pre, v.id ≠ id) ∧ u.id = id ∧
        us2 = pre ++ post := by
  intro us
  induction us with
  | nil => intro us2 h; simp [deleteList] at h
  | cons u rest ih =>
    intro us2 h
    by_cases hu : u.id = id
    · simp only [deleteList, hu, if_true, Option.some.injEq] at h
      exact ⟨[], u, rest, by simp, by simp, hu, by simp [h.symm]⟩
    · simp only [deleteList, hu, if_false] at h
      cases hrec : deleteList id rest with
      | none => rw [hrec] at h; exact absurd h (by simp)
      | some rest2 =>
        rw [hrec] at h
        simp only [Option.some.injEq] at h
        obtain ⟨pre, w, post, hsplit, hpre, hw, hrest2⟩ := ih rest2 hrec
        refine ⟨u :: pre, w, post, by simp [hsplit], ?_, hw, by simp [← h, hrest2]⟩
        intro v hv
        rcases List.mem_cons.mp hv with hv | hv
        · exact hv ▸ hu
        · exact hpre v hv

theorem deleteList_append_split (id : String) :
    ∀ (pre : List User) (u : User) (post : List User),
      (∀ v ∈ pre, v.id ≠ id) → u.id = id →
      deleteList id (pre ++ u :: post) = some (pre ++ post) := by
  intro pre
  induction pre with
  | nil => intro u post _ hu; simp [deleteList, hu]
  | cons v rest ih =>
    intro u post hpre hu
    have hv : v.id ≠ id := hpre v (by simp)
    simp only [List.cons_append, deleteList, hv, if_false, List.append_eq]
    rw [ih u post (fun w hw => hpre w (by simp [hw])) hu]

theorem runWrite_bus_cases (w : WriteOp) (st : GatewayState) :
    (runWrite w st).2.1.bus = st.bus ∨
    ∃ p, (runWrite w st).2.1.bus = publish st.bus (topicOfWrite w) p := by
  cases w with
  | create input => right; exact ⟨_, rfl⟩
  | update id input =>
    cases h : updateList id input st.server.users with
    | none => left; simp [runWrite, updateUser, h]
    | some pr =>
      obtain ⟨r, us2⟩ := pr
      right
      exact ⟨Payload.userUpdated r, by simp [runWrite, updateUser, h, topicOfWrite]⟩
  | delete id =>
    cases h : deleteList id st.server.users with
    | none => left; simp [runWrite, deleteUser, h]
    | some us2 =>
      right
      exact ⟨Payload.userDeleted id, by simp [runWrite, deleteUser, h, topicOfWrite]⟩

theorem runWrite_ok_decomp (w : WriteOp) (st : GatewayState) (r : WriteResult)
    (hok : (runWrite w st).1 = Except.ok r) :
    ∃ p : Payload,
      (runWrite w st).2.2 =
        [Effect.commit, Effect.publishEv (mkEvent st.bus (topicOfWrite w) p), Effect.ret] ∧
      (runWrite w st).2.1.bus = publish st.bus (topicOfWrite w) p := by
  cases w with
  | create input => exact ⟨Payload.userCreated _, rfl, rfl⟩
  | update id input =>
    cases h : updateList id input st.server.users with
    | none => simp [runWrite, updateUser, h, Except.map] at hok
    | some pr =>
      obtain ⟨r0, us2⟩ := pr
      exact ⟨Payload.userUpdated r0,
        by simp [runWrite, updateUser, h, topicOfWrite],
        by simp [runWrite, updateUser, h, topicOfWrite]⟩
  | delete id =>
    cases h : deleteList id st.server.users with
    | none => simp [runWrite, deleteUser, h, Except.map] at hok
    | some us2 =>
      exact ⟨Payload.userDeleted id,
        by simp [runWrite, deleteUser, h, topicOfWrite],
        by simp [runWrite, deleteUser, h, topicOfWrite]⟩

theorem runWrite_error_decomp (w : WriteOp) (st : GatewayState) (e : GqlError)
    (herr : (runWrite w st).1 = Except.error e) :
    (runWrite w st).2.1 = st ∧ (runWrite w st).2.2 = [] := by
  cases w with
  | create input => simp [runWrite, createUser, Except.map] at herr
  | update id input =>
    cases h : updateList id input st.server.users with
    | none => simp [runWrite, updateUser, h]
    | some pr =>
      obtain ⟨r0, us2⟩ := pr
      simp [runWrite, updateUser, h, Except.map] at herr
  | delete id =>
    cases h : deleteList id st.server.users with
    | none => simp [runWrite, deleteUser, h]
    | some us2 => simp [runWrite, deleteUser, h, Except.map] at herr

deriving instance DecidableEq for Except

/-- Sample concrete create input used in witnesses. -/
def sampleInput : CreateUserInput :=
  { name := "Priya", age := 28, salary := 75000, department := "Design" }

/-- Sample concrete update patch used in witnesses. -/
def samplePatch : UpdateUserInput :=
  { name := some "Neha", age := none, salary := none, department := none }

/-- C1: for every successful write operation (createUser, updateUser,
deleteUser) the publish of the corresponding event happens strictly after
the in-memory store mutation is complete and before the result is returned
to the caller: the effect trace is exactly commit, then publish, then
return, and in the state in which the caller observes the result the event
(carrying the next sequence number of the topic of the write) is already
enqueued on the delivery channel of every subscriber of that topic that was
registered at publish time and had room in its bounded channel. -/
theorem write_event_between_commit_and_return (w : WriteOp) (st : GatewayState)
    (r : WriteResult) (hok : (runWrite w st).1 = Except.ok r) :
    ∃ ev : Event,
      (runWrite w st).2.2 = [Effect.commit, Effect.publishEv ev, Effect.ret] ∧
      ev.topic = topicOfWrite w ∧
      ev.sequence = lookupSeq st.bus.seq (topicOfWrite w) + 1 ∧
      ∀ sub ∈ st.bus.subscribers, sub.topic = topicOfWrite w →
        sub.channel.length < sub.capacity →
        { sub with channel := sub.channel ++ [ev] } ∈ (runWrite w st).2.1.bus.subscribers := by
  obtain ⟨p, htr, hbus⟩ := runWrite_ok_decomp w st r hok
  refine ⟨mkEvent st.bus (topicOfWrite w) p, htr, rfl, rfl, ?_⟩
  intro sub hmem ht hr2
  rw [hbus]
  exact mem_publish_of_room st.bus (topicOfWrite w) p sub hmem ht hr2

theorem write_event_between_commit_and_return_witness :
    (runWrite (WriteOp.create sampleInput) initialState).1 =
      Except.ok (WriteResult.user
        { id := "4", name := "Priya", age := 28, salary := 75000, department := "Design" }) ∧
    ∃ ev : Event,
      (runWrite (WriteOp.create sampleInput) initialState).2.2 =
        [Effect.commit, Effect.publishEv ev, Effect.ret] ∧
      ev.topic = topicOfWrite (WriteOp.create sampleInput) ∧
      ev.sequence = lookupSeq initialState.bus.seq (topicOfWrite (WriteOp.create sampleInput)) + 1 ∧
      ∀ sub ∈ initialState.bus.subscribers, sub.topic = topicOfWrite (WriteOp.create sampleInput) →
        sub.channel.length < sub.capacity →
        { sub with channel := sub.channel ++ [ev] } ∈
          (runWrite (WriteOp.create sampleInput) initialState).2.1.bus.subscribers :=
  ⟨by decide, write_event_between_commit_and_return (WriteOp.create sampleInput) initialState
    (WriteResult.user
      { id := "4", name := "Priya", age := 28, salary := 75000, department := "Design" })
    (by decide)⟩

/-- C2: store mutation and event publication are atomic from the view of the
caller: when a write fails (updateUser or deleteUser on an absent id) the
state, store included, is returned unchanged and the effect trace is empty
(no event published); when it succeeds an event publish is in the trace; and
there is no outcome in which the store changed but no event was queued. -/
theorem write_store_event_atomic (w : WriteOp) (st : GatewayState) :
    (∀ e, (runWrite w st).1 = Except.error e →
      (runWrite w st).2.1 = st ∧ (runWrite w st).2.2 = []) ∧
    (∀ r, (runWrite w st).1 = Except.ok r →
      ∃ ev, Effect.publishEv ev ∈ (runWrite w st).2.2) ∧
    ((runWrite w st).2.1.server ≠ st.server →
      ∃ ev, Effect.publishEv ev ∈ (runWrite w st).2.2) := by
  refine ⟨fun e he => runWrite_error_decomp w st e he, ?_, ?_⟩
  · intro r hr
    obtain ⟨p, htr, _⟩ := runWrite_ok_decomp w st r hr
    exact ⟨mkEvent st.bus (topicOfWrite w) p, by simp [htr]⟩
  · intro hne
    cases hres : (runWrite w st).1 with
    | error e =>
      exact absurd (congrArg GatewayState.server (runWrite_error_decomp w st e hres).1) hne
    | ok r =>
      obtain ⟨p, htr, _⟩ := runWrite_ok_decomp w st r hres
      exact ⟨mkEvent st.bus (topicOfWrite w) p, by simp [htr]⟩

theorem write_store_event_atomic_witness :
    ((runWrite (WriteOp.update "9" samplePatch) initialState).1 =
        Except.error (GqlError.notFound "9")) ∧
    ((runWrite (WriteOp.update "9" samplePatch) initialState).2.1 = initialState ∧
      (runWrite (WriteOp.update "9" samplePatch) initialState).2.2 = []) :=
  ⟨by decide,
    (write_store_event_atomic (WriteOp.update "9" samplePatch) initialState).1
      (GqlError.notFound "9") (by decide)⟩

/-- C7: for an id not present in the store, updateUser and deleteUser fail
with the structured not-found error, leaving the state untouched (non-fatal:
the error is a returned value); for an id present in the store, updateUser
returns the patched record of the first user with that id and deleteUser
returns true. -/
theorem update_delete_notFound_or_succeed (id : String) (input : UpdateUserInput)
    (st : GatewayState) :
    ((∀ u ∈ st.server.users, u.id ≠ id) →
      updateUser id input st = (Except.error (GqlError.notFound id), st, []) ∧
      deleteUser id st = (Except.error (GqlError.notFound id), st, [])) ∧
    ((∃ u ∈ st.server.users, u.id = id) →
      (∃ pre u post, st.server.users = pre ++ u :: post ∧
        (∀ v ∈ pre, v.id ≠ id) ∧ u.id = id ∧
        (updateUser id input st).1 = Except.ok (applyPatch u input)) ∧
      (deleteUser id st).1 = Except.ok true) := by
  constructor
  · intro hmiss
    have hu : updateList id input st.server.users = none :=
      (updateList_eq_none_iff id input st.server.users).mpr hmiss
    have hd : deleteList id st.server.users = none :=
      (deleteList_eq_none_iff id st.server.users).mpr hmiss
    exact ⟨by simp [updateUser, hu], by simp [deleteUser, hd]⟩
  · intro hhit
    constructor
    · cases h : updateList id input st.server.users with
      | none =>
        obtain ⟨u, hu, hid⟩ := hhit
        exact absurd hid ((updateList_eq_none_iff id input st.server.users).mp h u hu)
      | some pr =>
        obtain ⟨r, us2⟩ := pr
        obtain ⟨pre, u, post, hsplit, hpre, hu, hr, _⟩ :=
          updateList_eq_some id input st.server.users r us2 h
        exact ⟨pre, u, post, hsplit, hpre, hu, by simp [updateUser, h, hr]⟩
    · cases h : deleteList id st.server.users with
      | none =>
        obtain ⟨u, hu, hid⟩ := hhit
        exact absurd hid ((deleteList_eq_none_iff id st.server.users).mp h u hu)
      | some us2 => simp [deleteUser, h]

theorem update_delete_notFound_or_succeed_witness :
    ((∀ u ∈ initialState.server.users, u.id ≠ "9") ∧
      (updateUser "9" samplePatch initialState =
          (Except.error (GqlError.notFound "9"), initialState, []) ∧
        deleteUser "9" initialState =
          (Except.error (GqlError.notFound "9"), initialState, []))) ∧
    ((∃ u ∈ initialState.server.users, u.id = "2") ∧
      ((∃ pre u post, initialState.server.users = pre ++ u :: post ∧
          (∀ v ∈ pre, v.id ≠ "2") ∧ u.id = "2" ∧
          (updateUser "2" samplePatch initialState).1 =
            Except.ok (applyPatch u samplePatch)) ∧
        (deleteUser "2" initialState).1 = Except.ok true)) :=
  ⟨⟨by decide,
      (update_delete_notFound_or_succeed "9" samplePatch initialState).1 (by decide)⟩,
    ⟨by decide,
      (update_delete_notFound_or_succeed "2" samplePatch initialState).2 (by decide)⟩⟩

/-- C10: updateUser on a present id modifies only the first user carrying
that id and only the fields present in the patch: the users before and after
it are returned untouched, the length of the store is unchanged, the id of
the target is kept, every field present in the patch takes the patched
value, and every field absent from the patch keeps its previous value. -/
theorem updateUser_frame (st : GatewayState) (id : String) (input : UpdateUserInput)
    (pre post : List User) (u : User)
    (hsplit : st.server.users = pre ++ u :: post)
    (hpre : ∀ v ∈ pre, v.id ≠ id) (hu : u.id = id) :
    (updateUser id input st).1 = Except.ok (applyPatch u input) ∧
    (updateUser id input st).2.1.server.users = pre ++ applyPatch u input :: post ∧
    (updateUser id input st).2.1.server.users.length = st.server.users.length ∧
    (applyPatch u input).id = u.id ∧
    (input.name = none → (applyPatch u input).name = u.name) ∧
    (∀ v, input.name = some v → (applyPatch u input).name = v) ∧
    (input.age = none → (applyPatch u input).age = u.age) ∧
    (∀ v, input.age = some v → (applyPatch u input).age = v) ∧
    (input.salary = none → (applyPatch u input).salary = u.salary) ∧
    (∀ v, input.salary = some v → (applyPatch u input).salary = v) ∧
    (input.department = none → (applyPatch u input).department = u.department) ∧
    (∀ v, input.department = some v → (applyPatch u input).department = v) := by
  have hup : updateList id input st.server.users =
      some (applyPatch u input, pre ++ applyPatch u input :: post) := by
    rw [hsplit]
    exact updateList_append_split id input pre u post hpre hu
  refine ⟨by simp [updateUser, hup], by simp [updateUser, hup],
    by simp [updateUser, hsplit, updateList_append_split id input pre u post hpre hu],
    by simp [applyPatch],
    fun h => by simp [applyPatch, h], fun v h => by simp [applyPatch, h],
    fun h => by simp [applyPatch, h], fun v h => by simp [applyPatch, h],
    fun h => by simp [applyPatch, h], fun v h => by simp [applyPatch, h],
    fun h => by simp [applyPatch, h], fun v h => by simp [applyPatch, h]⟩

theorem updateUser_frame_witness :
    (initialState.server.users =
        [{ id := "1", name := "Rahul", age := 25, salary := 70000, department := "Engineering" }] ++
          { id := "2", name := "Aisha", age := 30, salary := 85000, department := "Marketing" } ::
            [{ id := "3", name := "Ravi", age := 22, salary := 60000, department := "Support" }]) ∧
    ((updateUser "2" samplePatch initialState).1 =
        Except.ok (applyPatch
          { id := "2", name := "Aisha", age := 30, salary := 85000, department := "Marketing" }
          samplePatch) ∧
      (updateUser "2" samplePatch initialState).2.1.server.users =
        [{ id := "1", name := "Rahul", age := 25, salary := 70000, department := "Engineering" }] ++
          applyPatch
              { id := "2", name := "Aisha", age := 30, salary := 85000, department := "Marketing" }
              samplePatch ::
            [{ id := "3", name := "Ravi", age := 22, salary := 60000, department := "Support" }]) :=
  ⟨by decide,
    ⟨(updateUser_frame initialState "2" samplePatch
        [{ id := "1", name := "Rahul", age := 25, salary := 70000, department := "Engineering" }]
        [{ id := "3", name := "Ravi", age := 22, salary := 60000, department := "Support" }]
        { id := "2", name := "Aisha", age := 30, salary := 85000, department := "Marketing" }
        (by decide) (by decide) (by decide)).1,
      (updateUser_frame initialState "2" samplePatch
        [{ id := "1", name := "Rahul", age := 25, salary := 70000, department := "Engineering" }]
        [{ id := "3", name := "Ravi", age := 22, salary := 60000, department := "Support" }]
        { id := "2", name := "Aisha", age := 30, salary := 85000, department := "Marketing" }
        (by decide) (by decide) (by decide)).2.1⟩⟩

/-- C5: classification returns exactly one of Read, Write, LiveSubscribe and
is a pure function of the declared kind and operation of the descriptor; the
splitLink predicate of the client source coincides with the liveSubscribe
case; and an unknown or malformed descriptor fails with MalformedOperation
before any store access or subscription registration happens: the router
returns the state unchanged with an empty effect trace. -/
theorem classify_pure_and_malformed_first (d : OperationDescriptor) :
    (∀ k, classifyOperation d = Except.ok k →
      k = OpKind.read ∨ k = OpKind.write ∨ k = OpKind.liveSubscribe) ∧
    (splitTest d = true ↔ classifyOperation d = Except.ok OpKind.liveSubscribe) ∧
    (∀ d2 : OperationDescriptor, d2.kind = d.kind → d2.operation = d.operation →
      classifyOperation d2 = classifyOperation d) ∧
    (∀ (op : Operation) (st : GatewayState) (e : GqlError),
      op.descriptor = d → classifyOperation d = Except.error e →
      routeOperation op st = (Except.error e, st, [])) := by
  refine ⟨fun k _ => by cases k <;> simp, ?_,
    fun d2 h1 h2 => by simp [classifyOperation, h1, h2], ?_⟩
  · constructor
    · intro h
      simp only [splitTest, Bool.and_eq_true, beq_iff_eq] at h
      obtain ⟨h1, h2⟩ := h
      simp [classifyOperation, h1, h2]
    · intro h
      by_cases h1 : d.kind = "OperationDefinition"
      · by_cases hq : d.operation = "query"
        · simp [classifyOperation, h1, hq] at h
        · by_cases hm : d.operation = "mutation"
          · simp [classifyOperation, h1, hq, hm] at h
          · by_cases hs : d.operation = "subscription"
            · simp [splitTest, h1, hs]
            · simp [classifyOperation, h1, hq, hm, hs] at h
      · simp [classifyOperation, h1] at h
  · intro op st e hd he
    simp [routeOperation, hd, he]

theorem classify_pure_and_malformed_first_witness :
    (classifyOperation { kind := "FragmentDefinition", operation := "query" } =
        Except.error GqlError.malformedOperation) ∧
    routeOperation
        { descriptor := { kind := "FragmentDefinition", operation := "query" }
          action := GatewayOp.write (WriteOp.create sampleInput) } initialState =
      (Except.error GqlError.malformedOperation, initialState, []) :=
  ⟨by decide,
    (classify_pure_and_malformed_first
        { kind := "FragmentDefinition", operation := "query" }).2.2.2
      { descriptor := { kind := "FragmentDefinition", operation := "query" }
        action := GatewayOp.write (WriteOp.create sampleInput) }
      initialState GqlError.malformedOperation rfl (by decide)⟩

/-- C8: an event published by a create write is delivered only to the
subscribers of the creation topic: a subscriber A of USER_CREATED with room
in its channel receives the event of the write appended to its channel,
while a subscriber B of the deletion topic USER_DELETED keeps its handle,
channel included, unchanged (nothing is delivered to B). -/
theorem create_delivers_to_creation_topic_only (input : CreateUserInput)
    (st : GatewayState) (A B : Subscriber)
    (hA : A ∈ st.bus.subscribers) (hAt : A.topic = "USER_CREATED")
    (hAroom : A.channel.length < A.capacity)
    (hB : B ∈ st.bus.subscribers) (hBt : B.topic = "USER_DELETED") :
    { A with channel := A.channel ++
        [mkEvent st.bus "USER_CREATED" (Payload.userCreated (createUser input st).1)] } ∈
      (createUser input st).2.1.bus.subscribers ∧
    B ∈ (createUser input st).2.1.bus.subscribers := by
  constructor
  · exact mem_publish_of_room st.bus _ _ A hA hAt hAroom
  · exact mem_publish_of_other_topic st.bus _ _ B hB (by simp [hBt])

theorem create_delivers_to_creation_topic_only_witness :
    let stAB : GatewayState :=
      { server := initialState.server
        bus :=
          { subscribers :=
              [ { connectionId := 1, topic := "USER_CREATED", channel := [], capacity := 5 }
              , { connectionId := 2, topic := "USER_DELETED", channel := [], capacity := 5 } ]
            seq := [] } }
    { connectionId := 1, topic := "USER_CREATED"
      channel := [mkEvent stAB.bus "USER_CREATED"
        (Payload.userCreated (createUser sampleInput stAB).1)]
      capacity := 5 } ∈ (createUser sampleInput stAB).2.1.bus.subscribers ∧
    ({ connectionId := 2, topic := "USER_DELETED", channel := [], capacity := 5 } : Subscriber) ∈
      (createUser sampleInput stAB).2.1.bus.subscribers :=
  create_delivers_to_creation_topic_only sampleInput _
    { connectionId := 1, topic := "USER_CREATED", channel := [], capacity := 5 }
    { connectionId := 2, topic := "USER_DELETED", channel := [], capacity := 5 }
    (by decide) (by decide) (by decide) (by decide) (by decide)

theorem ofDigitsLE_digitsLE : ∀ n, ofDigitsLE (digitsLE n) = n := by
  intro n
  induction n using Nat.strong_induction_on with
  | _ n ih =>
    rw [digitsLE]
    split
    · simp [ofDigitsLE]
    · rw [ofDigitsLE, ih (n / 10) (Nat.div_lt_self (by omega) (by omega))]
      omega

theorem digitsLE_injective : Function.Injective digitsLE :=
  Function.LeftInverse.injective ofDigitsLE_digitsLE

theorem digitsLE_lt_ten : ∀ n, ∀ d ∈ digitsLE n, d < 10 := by
  intro n
  induction n using Nat.strong_induction_on with
  | _ n ih =>
    rw [digitsLE]
    split
    · intro d hd
      simp at hd
      omega
    · intro d hd
      rcases List.mem_cons.mp hd with hd | hd
      · subst hd
        exact Nat.mod_lt _ (by omega)
      · exact ih (n / 10) (Nat.div_lt_self (by omega) (by omega)) d hd

theorem digitChar_inj_below_ten :
    ∀ a < 10, ∀ b < 10, Nat.digitChar a = Nat.digitChar b → a = b := by decide

theorem toDigitsCore_append (fuel : Nat) :
    ∀ (n : Nat) (ds : List Char),
      Nat.toDigitsCore 10 fuel n ds = Nat.toDigitsCore 10 fuel n [] ++ ds := by
  induction fuel with
  | zero => intro n ds; rfl
  | succ fuel ih =>
    intro n ds
    rw [Nat.toDigitsCore, Nat.toDigitsCore]
    by_cases h : n / 10 = 0
    · simp [h]
    · simp only [h, if_false]
      rw [ih (n / 10) (Nat.digitChar (n % 10) :: ds), ih (n / 10) [Nat.digitChar (n % 10)]]
      simp

theorem toDigitsCore_eq_digitsLE (fuel : Nat) :
    ∀ n : Nat, n < 10 ^ (fuel + 1) →
      Nat.toDigitsCore 10 (fuel + 1) n [] = ((digitsLE n).map Nat.digitChar).reverse := by
  induction fuel with
  | zero =>
    intro n hn
    have hn10 : n < 10 := by simpa using hn
    have h0 : n / 10 = 0 := Nat.div_eq_of_lt hn10
    rw [digitsLE]
    simp [Nat.toDigitsCore, h0, hn10, Nat.mod_eq_of_lt hn10]
  | succ fuel ih =>
    intro n hn
    by_cases h0 : n / 10 = 0
    · have hlt : n < 10 := by omega
      rw [digitsLE]
      simp [Nat.toDigitsCore, h0, hlt, Nat.mod_eq_of_lt hlt]
    · have hge : ¬ n < 10 := by
        intro hc
        exact h0 (Nat.div_eq_of_lt hc)
      have hdiv : n / 10 < 10 ^ (fuel + 1) := by
        apply Nat.div_lt_of_lt_mul
        calc n < 10 ^ (fuel + 1 + 1) := hn
          _ = 10 * 10 ^ (fuel + 1) := by ring
      rw [Nat.toDigitsCore]
      simp only [h0, if_false]
      rw [toDigitsCore_append, ih (n / 10) hdiv]
      conv_rhs => rw [digitsLE]
      rw [if_neg hge]
      simp

theorem repr_eq_digitsLE (n : Nat) :
    Nat.repr n = (((digitsLE n).map Nat.digitChar).reverse).asString := by
  have hn : n < 10 ^ (n + 1) :=
    lt_of_lt_of_le (Nat.lt_pow_self (by omega) n)
      (Nat.pow_le_pow_right (by omega) (by omega))
  rw [Nat.repr, Nat.toDigits, toDigitsCore_eq_digitsLE n n hn]

theorem map_digitChar_inj :
    ∀ l1 l2 : List Nat, (∀ d ∈ l1, d < 10) → (∀ d ∈ l2, d < 10) →
      l1.map Nat.digitChar = l2.map Nat.digitChar → l1 = l2 := by
  intro l1
  induction l1 with
  | nil =>
    intro l2 _ _ h
    cases l2 with
    | nil => rfl
    | cons b m => simp at h
  | cons a l ih =>
    intro l2 h1 h2 h
    cases l2 with
    | nil => simp at h
    | cons b m =>
      simp only [List.map_cons, List.cons.injEq] at h
      have hab : a = b :=
        digitChar_inj_below_ten a (h1 a (by simp)) b (h2 b (by simp)) h.1
      rw [hab, ih m (fun d hd => h1 d (by simp [hd])) (fun d hd => h2 d (by simp [hd])) h.2]

theorem nat_repr_injective : Function.Injective Nat.repr := by
  intro a b h
  rw [repr_eq_digitsLE, repr_eq_digitsLE] at h
  have h2 : ((digitsLE a).map Nat.digitChar).reverse =
      ((digitsLE b).map Nat.digitChar).reverse := by
    have := congrArg String.data h
    simpa [List.asString] using this
  rw [List.reverse_inj] at h2
  exact digitsLE_injective
    (map_digitChar_inj (digitsLE a) (digitsLE b) (digitsLE_lt_ten a) (digitsLE_lt_ten b) h2)

theorem goodIds_initial : goodIds initialState := by
  constructor
  · decide
  · intro u hu
    simp only [initialState, initialUsers, List.mem_cons, List.not_mem_nil, or_false] at hu
    rcases hu with hu | hu | hu
    · exact ⟨1, by decide, by subst hu; decide⟩
    · exact ⟨2, by decide, by subst hu; decide⟩
    · exact ⟨3, by decide, by subst hu; decide⟩

theorem goodIds_create (input : CreateUserInput) (st : GatewayState) (h : goodIds st) :
    goodIds (createUser input st).2.1 := by
  obtain ⟨hnd, hbound⟩ := h
  constructor
  · show ((st.server.users ++
      [({ id := Nat.repr st.server.nextUserId, name := input.name, age := input.age,
          salary := input.salary, department := input.department } : User)]).map User.id).Nodup
    rw [List.map_append, List.nodup_append]
    refine ⟨hnd, by simp, ?_⟩
    intro a ha hb
    simp only [List.map_cons, List.map_nil, List.mem_cons, List.not_mem_nil, or_false] at hb
    subst hb
    simp only [List.mem_map] at ha
    obtain ⟨u, hu, hid⟩ := ha
    obtain ⟨n, hn, hid2⟩ := hbound u hu
    have : n = st.server.nextUserId := nat_repr_injective (hid2.symm.trans hid)
    omega
  · intro u hu
    show ∃ n, n < st.server.nextUserId + 1 ∧ u.id = Nat.repr n
    rcases List.mem_append.mp hu with hu | hu
    · obtain ⟨n, hn, hid⟩ := hbound u hu
      exact ⟨n, by omega, hid⟩
    · simp only [List.mem_cons, List.not_mem_nil, or_false] at hu
      subst hu
      exact ⟨st.server.nextUserId, by omega, rfl⟩

theorem goodIds_update (id : String) (input : UpdateUserInput) (st : GatewayState)
    (h : goodIds st) : goodIds (updateUser id input st).2.1 := by
  obtain ⟨hnd, hbound⟩ := h
  cases hcase : updateList id input st.server.users with
  | none => exact ⟨by simp [updateUser, hcase, hnd], by simpa [updateUser, hcase] using hbound⟩
  | some pr =>
    obtain ⟨r, us2⟩ := pr
    obtain ⟨pre, u, post, hsplit, hpre, hu, hr, hus2⟩ :=
      updateList_eq_some id input st.server.users r us2 hcase
    have hid : r.id = u.id := by rw [hr]; rfl
    have husers : (updateUser id input st).2.1.server.users = us2 := by
      simp [updateUser, hcase]
    have hnext : (updateUser id input st).2.1.server.nextUserId = st.server.nextUserId := by
      simp [updateUser, hcase]
    constructor
    · rw [husers]
      rw [hus2, List.map_append, List.map_cons, hid]
      rw [hsplit, List.map_append, List.map_cons] at hnd
      exact hnd
    · intro v hv
      rw [hnext]
      rw [husers, hus2] at hv
      rcases List.mem_append.mp hv with hv | hv
      · exact hbound v (by rw [hsplit]; exact List.mem_append_left _ hv)
      · rcases List.mem_cons.mp hv with hv | hv
        · subst hv
          obtain ⟨n, hn, hid2⟩ := hbound u (by rw [hsplit]; simp)
          exact ⟨n, hn, by rw [hid, hid2]⟩
        · exact hbound v (by rw [hsplit]; simp [hv])

theorem goodIds_delete (id : String) (st : GatewayState) (h : goodIds st) :
    goodIds (deleteUser id st).2.1 := by
  obtain ⟨hnd, hbound⟩ := h
  cases hcase : deleteList id st.server.users with
  | none => exact ⟨by simp [deleteUser, hcase, hnd], by simpa [deleteUser, hcase] using hbound⟩
  | some us2 =>
    obtain ⟨pre, u, post, hsplit, hpre, hu, hus2⟩ :=
      deleteList_eq_some id st.server.users us2 hcase
    have husers : (deleteUser id st).2.1.server.users = us2 := by
      simp [deleteUser, hcase]
    have hnext : (deleteUser id st).2.1.server.nextUserId = st.server.nextUserId := by
      simp [deleteUser, hcase]
    constructor
    · rw [husers]
      refine List.Nodup.sublist ?_ (by rw [hsplit] at hnd; exact hnd)
      rw [hus2]
      exact ((List.sublist_cons_self u post).append_left pre).map User.id
    · intro v hv
      rw [hnext]
      rw [husers, hus2] at hv
      rcases List.mem_append.mp hv with hv | hv
      · exact hbound v (by rw [hsplit]; exact List.mem_append_left _ hv)
      · exact hbound v (by rw [hsplit]; simp [hv])

theorem goodIds_applyGatewayOp (st : GatewayState) (op : GatewayOp) (h : goodIds st) :
    goodIds (applyGatewayOp st op) := by
  cases op with
  | subscribeOp c t cap => exact h
  | unsubscribeOp c t => exact h
  | write w =>
    cases w with
    | create input => exact goodIds_create input st h
    | update id input => exact goodIds_update id input st h
    | delete id => exact goodIds_delete id st h

theorem goodIds_runGateway (ops : List GatewayOp) (st : GatewayState) (h : goodIds st) :
    goodIds (runGateway ops st) := by
  induction ops generalizing st with
  | nil => exact h
  | cons op rest ih => exact ih (applyGatewayOp st op) (goodIds_applyGatewayOp st op h)

/-- C9: starting from the initial three-user store with the id counter at 4,
every sequence of createUser, updateUser and deleteUser operations keeps all
stored user ids pairwise distinct; every stored id is the decimal string of
a number strictly below the counter, so the id createUser assigns next (the
string form of the counter, strictly greater than every previously assigned
number) never collides with any existing id. -/
theorem ids_pairwise_distinct (ops : List GatewayOp) (input : CreateUserInput) :
    ((runGateway ops initialState).server.users.map User.id).Nodup ∧
    (∀ u ∈ (runGateway ops initialState).server.users,
      ∃ n, n < (runGateway ops initialState).server.nextUserId ∧ u.id = Nat.repr n) ∧
    (createUser input (runGateway ops initialState)).1.id ∉
      (runGateway ops initialState).server.users.map User.id := by
  obtain ⟨hnd, hbound⟩ := goodIds_runGateway ops initialState goodIds_initial
  refine ⟨hnd, hbound, ?_⟩
  intro hmem
  have hcre : (createUser input (runGateway ops initialState)).1.id =
      Nat.repr (runGateway ops initialState).server.nextUserId := rfl
  rw [hcre] at hmem
  simp only [List.mem_map] at hmem
  obtain ⟨u, hu, hid⟩ := hmem
  obtain ⟨n, hn, hid2⟩ := hbound u hu
  have : n = (runGateway ops initialState).server.nextUserId :=
    nat_repr_injective (hid2.symm.trans hid)
  omega

theorem ids_pairwise_distinct_witness :
    (((runGateway [GatewayOp.write (WriteOp.create sampleInput)]
        initialState).server.users.map User.id).Nodup) ∧
    (createUser sampleInput
        (runGateway [GatewayOp.write (WriteOp.create sampleInput)] initialState)).1.id ∉
      (runGateway [GatewayOp.write (WriteOp.create sampleInput)]
        initialState).server.users.map User.id :=
  ⟨(ids_pairwise_distinct [GatewayOp.write (WriteOp.create sampleInput)] sampleInput).1,
    (ids_pairwise_distinct [GatewayOp.write (WriteOp.create sampleInput)] sampleInput).2.2⟩

theorem chanOk_extend (s : Nat) (sub : Subscriber) (ev : Event)
    (h : chanOk s sub) (htop : ev.topic = sub.topic) (hseq : ev.sequence = s + 1) :
    chanOk (s + 1) { sub with channel := sub.channel ++ [ev] } := by
  obtain ⟨h1, h2, h3⟩ := h
  refine ⟨?_, by simp; omega, ?_⟩
  · intro e he
    rcases List.mem_append.mp he with he | he
    · exact h1 e he
    · simp only [List.mem_cons, List.not_mem_nil, or_false] at he
      subst he
      exact htop
  · show (sub.channel ++ [ev]).map Event.sequence =
      List.range' (s + 1 - (sub.channel ++ [ev]).length + 1) (sub.channel ++ [ev]).length
    rw [List.map_append, List.map_cons, List.map_nil, h3, hseq]
    rw [List.length_append, List.length_cons, List.length_nil]
    have ha : s + 1 - (sub.channel.length + 0 + 1) + 1 = s - sub.channel.length + 1 := by omega
    rw [ha, List.range'_1_concat]
    have hb : s - sub.channel.length + 1 + sub.channel.length = s + 1 := by omega
    rw [hb]

theorem busOk_publish (bus : TopicBus) (t : String) (p : Payload) (h : busOk bus) :
    busOk (publish bus t p) := by
  intro sub hmem
  rcases mem_of_mem_publish bus t p sub hmem with ⟨sub0, h0, heq, ht⟩ | ⟨sub0, h0, ht, hr, heq⟩
  · subst heq
    have hinv := h sub h0
    rwa [lookupSeq_publish_ne bus t sub.topic p ht]
  · subst heq
    have hinv := h sub0 h0
    rw [ht] at hinv
    have hch := chanOk_extend (lookupSeq bus.seq t) sub0 (mkEvent bus t p) hinv
      (by rw [ht]; rfl) rfl
    show chanOk (lookupSeq (publish bus t p).seq sub0.topic) _
    have hkey : lookupSeq (publish bus t p).seq sub0.topic = lookupSeq bus.seq t + 1 := by
      rw [ht, lookupSeq_publish_self]
    rw [hkey]
    exact hch

theorem busOk_subscribe (bus : TopicBus) (c : Nat) (t : String) (cap : Nat)
    (h : busOk bus) : busOk (subscribe bus c t cap) := by
  intro sub hmem
  unfold subscribe at hmem ⊢
  by_cases hc : (bus.subscribers.any fun s => decide (s.connectionId = c ∧ s.topic = t)) = true
  · rw [if_pos hc] at hmem ⊢
    exact h sub hmem
  · rw [if_neg hc] at hmem ⊢
    rcases List.mem_append.mp hmem with hmem2 | hmem2
    · exact h sub hmem2
    · simp only [List.mem_cons, List.not_mem_nil, or_false] at hmem2
      subst hmem2
      exact ⟨by simp, by simp, by simp⟩

theorem busOk_unsubscribe (bus : TopicBus) (c : Nat) (t : String) (h : busOk bus) :
    busOk (unsubscribe bus c t) := by
  intro sub hmem
  exact h sub (List.mem_of_mem_filter hmem)

theorem busOk_applyGatewayOp (st : GatewayState) (op : GatewayOp) (h : busOk st.bus) :
    busOk (applyGatewayOp st op).bus := by
  cases op with
  | write w =>
    show busOk (runWrite w st).2.1.bus
    rcases runWrite_bus_cases w st with heq | ⟨p, heq⟩
    · rwa [heq]
    · rw [heq]
      exact busOk_publish st.bus (topicOfWrite w) p h
  | subscribeOp c t cap => exact busOk_subscribe st.bus c t cap h
  | unsubscribeOp c t => exact busOk_unsubscribe st.bus c t h

theorem busOk_runGateway (ops : List GatewayOp) (st : GatewayState) (h : busOk st.bus) :
    busOk (runGateway ops st).bus := by
  induction ops generalizing st with
  | nil => exact h
  | cons op rest ih => exact ih (applyGatewayOp st op) (busOk_applyGatewayOp st op h)

/-- C3: publish assigns the next sequence number for its topic (the event
carries the incremented per-topic counter and the counter moves to it), and
along every run of gateway operations from the initial state every
subscriber's delivery channel holds events of its own topic whose sequence
numbers form the contiguous strictly increasing run ending at the counter
of the topic: delivered in strictly increasing order, with no gaps and no
duplicates. -/
theorem publish_next_seq_and_ordered_delivery :
    (∀ (bus : TopicBus) (t : String) (p : Payload),
      (mkEvent bus t p).sequence = lookupSeq bus.seq t + 1 ∧
      lookupSeq (publish bus t p).seq t = lookupSeq bus.seq t + 1) ∧
    (∀ ops : List GatewayOp,
      ∀ sub ∈ (runGateway ops initialState).bus.subscribers,
        (∀ ev ∈ sub.channel, ev.topic = sub.topic) ∧
        sub.channel.map Event.sequence =
          List.range'
            (lookupSeq (runGateway ops initialState).bus.seq sub.topic -
              sub.channel.length + 1)
            sub.channel.length ∧
        (sub.channel.map Event.sequence).Pairwise (· < ·) ∧
        (sub.channel.map Event.sequence).Nodup) := by
  constructor
  · intro bus t p
    exact ⟨rfl, lookupSeq_publish_self bus t p⟩
  · intro ops sub hmem
    have hbase : busOk initialState.bus := by
      intro sub2 hmem2
      simp [initialState] at hmem2
    obtain ⟨h1, h2, h3⟩ := busOk_runGateway ops initialState hbase sub hmem
    refine ⟨h1, h3, ?_, ?_⟩
    · rw [h3]
      exact List.pairwise_lt_range' _ _
    · rw [h3]
      exact List.nodup_range' _ _

theorem publish_next_seq_and_ordered_delivery_witness :
    (({ connectionId := 1, topic := "USER_CREATED"
        channel := [{ topic := "USER_CREATED"
                      payload := Payload.userCreated
                        { id := "4", name := "Priya", age := 28, salary := 75000
                          department := "Design" }
                      sequence := 1 }]
        capacity := 5 } : Subscriber) ∈
      (runGateway [GatewayOp.subscribeOp 1 "USER_CREATED" 5,
        GatewayOp.write (WriteOp.create sampleInput)] initialState).bus.subscribers) ∧
    (∀ ev ∈ ([{ topic := "USER_CREATED"
                payload := Payload.userCreated
                  { id := "4", name := "Priya", age := 28, salary := 75000
                    department := "Design" }
                sequence := 1 }] : List Event), ev.topic = "USER_CREATED") ∧
    (([{ topic := "USER_CREATED"
         payload := Payload.userCreated
           { id := "4", name := "Priya", age := 28, salary := 75000
             department := "Design" }
         sequence := 1 }] : List Event).map Event.sequence).Pairwise (· < ·) :=
  ⟨by decide,
    fun ev hev =>
      ((publish_next_seq_and_ordered_delivery).2
        [GatewayOp.subscribeOp 1 "USER_CREATED" 5,
          GatewayOp.write (WriteOp.create sampleInput)]
        { connectionId := 1, topic := "USER_CREATED"
          channel := [{ topic := "USER_CREATED"
                        payload := Payload.userCreated
                          { id := "4", name := "Priya", age := 28, salary := 75000
                            department := "Design" }
                        sequence := 1 }]
          capacity := 5 } (by decide)).1 ev hev,
    ((publish_next_seq_and_ordered_delivery).2
      [GatewayOp.subscribeOp 1 "USER_CREATED" 5,
        GatewayOp.write (WriteOp.create sampleInput)]
      { connectionId := 1, topic := "USER_CREATED"
        channel := [{ topic := "USER_CREATED"
                      payload := Payload.userCreated
                        { id := "4", name := "Priya", age := 28, salary := 75000
                          department := "Design" }
                      sequence := 1 }]
        capacity := 5 } (by decide)).2.2.1⟩

theorem publish_subscribers (bus : TopicBus) (t : String) (p : Payload) :
    (publish bus t p).subscribers = bus.subscribers.filterMap fun sub =>
      if sub.topic = t then
        if sub.channel.length < sub.capacity then
          some { sub with channel := sub.channel ++ [mkEvent bus t p] }
        else
          none
      else
        some sub := rfl

theorem pubs_succ_comm (t : String) (p : Payload) (n : Nat) :
    ∀ bus, pubs t p (n + 1) bus = publish (pubs t p n bus) t p := by
  induction n with
  | zero => intro bus; rfl
  | succ n ih =>
    intro bus
    show pubs t p (n + 1) (publish bus t p) = publish (pubs t p (n + 1) bus) t p
    rw [ih (publish bus t p)]
    rfl

theorem pubs_add (t : String) (p : Payload) (m n : Nat) :
    ∀ bus, pubs t p (m + n) bus = pubs t p n (pubs t p m bus) := by
  induction m with
  | zero => intro bus; rw [Nat.zero_add]; rfl
  | succ m ih =>
    intro bus
    have he : m + 1 + n = m + n + 1 := by omega
    rw [he]
    show pubs t p (m + n) (publish bus t p) = pubs t p n (pubs t p m (publish bus t p))
    rw [ih (publish bus t p)]

theorem lookupSeq_pubs (t : String) (p : Payload) (n : Nat) :
    ∀ bus, lookupSeq (pubs t p n bus).seq t = lookupSeq bus.seq t + n := by
  induction n with
  | zero => intro bus; rfl
  | succ n ih =>
    intro bus
    show lookupSeq (pubs t p n (publish bus t p)).seq t = lookupSeq bus.seq t + (n + 1)
    rw [ih (publish bus t p), lookupSeq_publish_self]
    omega

theorem pubs_empty_subscribers (t : String) (p : Payload) (n : Nat) :
    ∀ bus, bus.subscribers = [] → (pubs t p n bus).subscribers = [] := by
  induction n with
  | zero => intro bus h; exact h
  | succ n ih =>
    intro bus h
    show (pubs t p n (publish bus t p)).subscribers = []
    apply ih
    rw [publish_subscribers, h]
    rfl

theorem pubs_saturated_channel (t : String) (p : Payload) (capA : Nat) :
    ∀ j, j ≤ capA →
      (pubs t p j (oneSubBus t capA)).subscribers =
        [{ connectionId := 1, topic := t,
           channel := (List.range' 1 j).map fun s =>
             ({ topic := t, payload := p, sequence := s } : Event),
           capacity := capA }] := by
  intro j
  induction j with
  | zero => intro _; rfl
  | succ j ih =>
    intro hj
    have hjlt : j < capA := by omega
    rw [pubs_succ_comm, publish_subscribers, ih (by omega)]
    have hseq : lookupSeq (pubs t p j (oneSubBus t capA)).seq t = j := by
      rw [lookupSeq_pubs]
      simp [oneSubBus, lookupSeq]
    have hlen : ((List.range' 1 j).map fun s =>
        ({ topic := t, payload := p, sequence := s } : Event)).length = j := by simp
    simp only [List.filterMap_cons, List.filterMap_nil, if_pos rfl, mkEvent, hseq, hlen,
      if_pos hjlt]
    rw [List.range'_1_concat]
    simp [Nat.add_comm]

/-- C4: a subscriber whose bounded delivery channel (capacity capA) is never
drained does not block the publisher: a run of N > capA publishes always
completes, the per-topic sequence counter reaching N, and the saturated
subscriber ends up forcibly unsubscribed (the subscriber registry is empty);
moreover a publish never withholds delivery from a subscriber with room:
every registered subscriber of the topic with spare capacity receives the
published event. -/
theorem saturated_subscriber_dropped (t : String) (p : Payload) (capA N : Nat)
    (h : capA < N) :
    (pubs t p N (oneSubBus t capA)).subscribers = [] ∧
    lookupSeq (pubs t p N (oneSubBus t capA)).seq t = N ∧
    (∀ (bus : TopicBus) (sub : Subscriber), sub ∈ bus.subscribers → sub.topic = t →
      sub.channel.length < sub.capacity →
      { sub with channel := sub.channel ++ [mkEvent bus t p] } ∈
        (publish bus t p).subscribers) := by
  refine ⟨?_, ?_, fun bus sub hm ht hr => mem_publish_of_room bus t p sub hm ht hr⟩
  · obtain ⟨k, hk⟩ : ∃ k, N = capA + 1 + k := ⟨N - (capA + 1), by omega⟩
    rw [hk, pubs_add]
    apply pubs_empty_subscribers
    rw [pubs_succ_comm]
    rw [publish_subscribers, pubs_saturated_channel t p capA capA (le_refl capA)]
    simp
  · rw [lookupSeq_pubs]
    simp [oneSubBus, lookupSeq]

theorem saturated_subscriber_dropped_witness :
    ((pubs "USER_CREATED" (Payload.userDeleted "1") 4
        (oneSubBus "USER_CREATED" 2)).subscribers = []) ∧
    lookupSeq (pubs "USER_CREATED" (Payload.userDeleted "1") 4
        (oneSubBus "USER_CREATED" 2)).seq "USER_CREATED" = 4 :=
  ⟨(saturated_subscriber_dropped "USER_CREATED" (Payload.userDeleted "1") 2 4 (by decide)).1,
    (saturated_subscriber_dropped "USER_CREATED" (Payload.userDeleted "1") 2 4 (by decide)).2.1⟩

theorem avoids_publish (c : Nat) (ev : Event) (bus : TopicBus) (t : String) (p : Payload)
    (h : avoids c ev bus) : avoids c ev (publish bus t p) := by
  obtain ⟨hseq, hch⟩ := h
  constructor
  · exact le_trans hseq (lookupSeq_publish_ge bus t ev.topic p)
  · intro sub hmem hc
    rcases mem_of_mem_publish bus t p sub hmem with ⟨sub0, h0, heq, ht⟩ | ⟨sub0, h0, ht, hr, heq⟩
    · subst heq
      exact hch sub h0 hc
    · subst heq
      intro hin
      rcases List.mem_append.mp hin with hin | hin
      · exact hch sub0 h0 hc hin
      · simp only [List.mem_cons, List.not_mem_nil, or_false] at hin
        have h1 : ev.topic = t := by simp [hin, mkEvent]
        have h2 : ev.sequence = lookupSeq bus.seq t + 1 := by simp [hin, mkEvent]
        rw [h1] at hseq
        omega

theorem avoids_subscribe (c : Nat) (ev : Event) (bus : TopicBus) (c2 : Nat) (t : String)
    (cap : Nat) (h : avoids c ev bus) : avoids c ev (subscribe bus c2 t cap) := by
  obtain ⟨hseq, hch⟩ := h
  constructor
  · unfold subscribe
    split
    · exact hseq
    · exact hseq
  · intro sub hmem hc
    unfold subscribe at hmem
    split at hmem
    · exact hch sub hmem hc
    · rcases List.mem_append.mp hmem with hmem2 | hmem2
      · exact hch sub hmem2 hc
      · simp only [List.mem_cons, List.not_mem_nil, or_false] at hmem2
        subst hmem2
        simp

theorem avoids_unsubscribe (c : Nat) (ev : Event) (bus : TopicBus) (c2 : Nat) (t : String)
    (h : avoids c ev bus) : avoids c ev (unsubscribe bus c2 t) := by
  obtain ⟨hseq, hch⟩ := h
  exact ⟨hseq, fun sub hmem hc => hch sub (List.mem_of_mem_filter hmem) hc⟩

theorem avoids_applyGatewayOp (c : Nat) (ev : Event) (st : GatewayState) (op : GatewayOp)
    (h : avoids c ev st.bus) : avoids c ev (applyGatewayOp st op).bus := by
  cases op with
  | write w =>
    show avoids c ev (runWrite w st).2.1.bus
    rcases runWrite_bus_cases w st with heq | ⟨p, heq⟩
    · rwa [heq]
    · rw [heq]
      exact avoids_publish c ev st.bus (topicOfWrite w) p h
  | subscribeOp c2 t cap => exact avoids_subscribe c ev st.bus c2 t cap h
  | unsubscribeOp c2 t => exact avoids_unsubscribe c ev st.bus c2 t h

theorem avoids_runGateway (c : Nat) (ev : Event) (ops : List GatewayOp) (st : GatewayState)
    (h : avoids c ev st.bus) : avoids c ev (runGateway ops st).bus := by
  induction ops generalizing st with
  | nil => exact h
  | cons op rest ih => exact ih (applyGatewayOp st op) (avoids_applyGatewayOp c ev st op h)

/-- C6: a subscriber whose connection registers on the bus only after a
write has completed never receives the event of that write: whatever gateway
operations run afterwards, every subscriber handle of that connection keeps
a delivery channel free of the event — events go solely to subscribers
registered at publish time, with no buffering before subscription and no
replay. -/
theorem no_replay_for_late_subscriber (st : GatewayState) (w : WriteOp) (ev : Event)
    (c : Nat) (t : String) (cap : Nat) (ops : List GatewayOp)
    (hev : Effect.publishEv ev ∈ (runWrite w st).2.2)
    (hfresh : ∀ sub ∈ (runWrite w st).2.1.bus.subscribers, sub.connectionId ≠ c) :
    ∀ sub ∈ (runGateway ops
        (applyGatewayOp (runWrite w st).2.1 (GatewayOp.subscribeOp c t cap))).bus.subscribers,
      sub.connectionId = c → ev ∉ sub.channel := by
  have hstart : avoids c ev (runWrite w st).2.1.bus := by
    cases hres : (runWrite w st).1 with
    | error e =>
      rw [(runWrite_error_decomp w st e hres).2] at hev
      exact absurd hev (List.not_mem_nil _)
    | ok r =>
      obtain ⟨p, htr, hbus⟩ := runWrite_ok_decomp w st r hres
      rw [htr] at hev
      simp only [List.mem_cons, List.not_mem_nil, or_false, Effect.publishEv.injEq] at hev
      rcases hev with hev | hev
      · exact absurd hev (by simp)
      · rcases hev with hev | hev
        · subst hev
          constructor
          · rw [hbus]
            show (mkEvent st.bus (topicOfWrite w) p).sequence ≤
              lookupSeq (publish st.bus (topicOfWrite w) p).seq (topicOfWrite w)
            rw [lookupSeq_publish_self]
            simp [mkEvent]
          · intro sub hmem hc
            exact absurd hc (hfresh sub hmem)
        · exact absurd hev (by simp)
  have hsub : avoids c ev (applyGatewayOp (runWrite w st).2.1
      (GatewayOp.subscribeOp c t cap)).bus :=
    avoids_applyGatewayOp c ev (runWrite w st).2.1 (GatewayOp.subscribeOp c t cap) hstart
  exact (avoids_runGateway c ev ops _ hsub).2

theorem no_replay_for_late_subscriber_witness :
    (Effect.publishEv (mkEvent initialState.bus "USER_CREATED"
        (Payload.userCreated (createUser sampleInput initialState).1)) ∈
      (runWrite (WriteOp.create sampleInput) initialState).2.2) ∧
    (∀ sub ∈ (runGateway [GatewayOp.write (WriteOp.create
          { name := "Zoya", age := 31, salary := 90000, department := "Sales" })]
        (applyGatewayOp (runWrite (WriteOp.create sampleInput) initialState).2.1
          (GatewayOp.subscribeOp 7 "USER_CREATED" 5))).bus.subscribers,
      sub.connectionId = 7 →
        mkEvent initialState.bus "USER_CREATED"
          (Payload.userCreated (createUser sampleInput initialState).1) ∉ sub.channel) :=
  ⟨by decide,
    no_replay_for_late_subscriber initialState (WriteOp.create sampleInput)
      (mkEvent initialState.bus "USER_CREATED"
        (Payload.userCreated (createUser sampleInput initialState).1))
      7 "USER_CREATED" 5
      [GatewayOp.write (WriteOp.create
        { name := "Zoya", age := 31, salary := 90000, department := "Sales" })]
      (by decide) (by decide)⟩

end GqlGateway
